import Mathlib

/-!
# Job board: signed links, validation and the social-publish sweep

A shallow embedding of `pkg/data/data.go`, `pkg/data/user.go`,
`pkg/server/server.go`, `pkg/server/signed.go` and `pkg/tasks/social.go`.

Go `string` values are Lean `String`s; where the Go code walks a string byte by
byte the embedding walks its characters (all the bytes the code tests for are
ASCII, so the two walks agree on well-formed UTF-8).

Functions of the Go standard library and of third-party packages are not part of
the repository.  Those whose result the program only passes on are fields of
`Env`; `url.ParseRequestURI` is embedded from `net/url` as far as its verdict
(error or no error) goes, with the authority check left to `Env`.
-/

namespace JobBoard

/-! ## Library values -/

/-- A `time.Time` as it comes out of the database: an instant, in nanoseconds
since the Unix epoch. -/
structure Time where
  unixNano : Int
  deriving DecidableEq, Repr

/-- The zero value `time.Time{}`: January 1, year 1, 00:00:00 UTC. -/
def Time.zero : Time := ⟨-62135596800000000000⟩

/-- The value `sql.NullString`. -/
structure NullString where
  String : String
  Valid : Bool
  deriving DecidableEq, Repr

/-- Library functions whose code is outside the repository. -/
structure Env where
  /-- The method `time.Time.String`. -/
  timeString : Time → String
  /-- The SHA-1 digest of the input, encoded with `base64.URLEncoding`. -/
  sha1Base64 : String → String
  /-- Whether `parseAuthority` of `net/url` returns no error. -/
  parseAuthority : List Char → Bool
  /-- Whether `mail.ParseAddress` returns no error on an input that is not
  empty after its leading blanks are skipped. -/
  parseAddressBody : List Char → Bool

/-! ## pkg/data: Job and User -/

structure Job where
  ID : String
  Position : String
  Organization : String
  Url : NullString
  Description : NullString
  Email : String
  PublishedAt : Time
  PublishedToSocials : Bool
  deriving DecidableEq, Repr

structure User where
  ID : String
  Email : String
  Verified : Bool
  CreatedAt : Time
  deriving DecidableEq, Repr

structure NewJob where
  Position : String
  Organization : String
  Url : String
  Description : String
  Email : String
  deriving DecidableEq, Repr

/-- The zero value of `Job` (what `var job Job` declares). -/
def Job.zero : Job :=
  { ID := "", Position := "", Organization := "", Url := ⟨"", false⟩,
    Description := ⟨"", false⟩, Email := "", PublishedAt := Time.zero,
    PublishedToSocials := false }

/-- The zero value of `User`. -/
def User.zero : User :=
  { ID := "", Email := "", Verified := false, CreatedAt := Time.zero }

def Job.ItemID (job : Job) : String := job.ID

def User.ItemID (user : User) : String := user.ID

/-- The method `Job.Update`. -/
def Job.Update (job : Job) (newParams : NewJob) : Job :=
  { job with
    Position := newParams.Position
    Organization := newParams.Organization
    Url := ⟨newParams.Url, newParams.Url != ""⟩
    Description := ⟨newParams.Description, newParams.Description != ""⟩ }

/-- The digest input `fmt.Sprintf("%s:%s:%s:%s", id, email, timestamp, secret)`. -/
def digestInput (id email timestamp secret : String) : String :=
  id ++ ":" ++ email ++ ":" ++ timestamp ++ ":" ++ secret

/-- The method `Job.Hash`. -/
def Job.Hash (env : Env) (job : Job) (secret : String) : String :=
  let input := digestInput job.ID job.Email (env.timeString job.PublishedAt) secret
  env.sha1Base64 input

/-- The method `User.Hash`. -/
def User.Hash (env : Env) (user : User) (secret : String) : String :=
  let input := digestInput user.ID user.Email (env.timeString user.CreatedAt) secret
  env.sha1Base64 input

/-- The interface `DataModel`, with its two implementations. -/
inductive DataModel where
  | job (j : Job)
  | user (u : User)
  deriving DecidableEq, Repr

def DataModel.ItemID : DataModel → String
  | .job j => j.ItemID
  | .user u => u.ItemID

def DataModel.Hash (env : Env) : DataModel → String → String
  | .job j, secret => j.Hash env secret
  | .user u, secret => u.Hash env secret

/-! ## The store -/

/-- Errors of `database/sql`: `sql.ErrNoRows`, or any other failure. -/
inductive DBError where
  | ErrNoRows
  | Failure (msg : String)
  deriving DecidableEq, Repr

/-- The database: the two tables, and whether statements fail (connection lost,
for instance), in which case every statement returns that failure. -/
structure DB where
  jobs : List Job
  users : List User
  failure : Option String
  deriving DecidableEq, Repr

/-- The call `db.Get(&job, "SELECT * FROM jobs WHERE id = $1", id)`. -/
def DB.getJobByID (db : DB) (id : String) : Except DBError Job :=
  match db.failure with
  | some msg => .error (.Failure msg)
  | none =>
    match db.jobs.find? (fun j => j.ID == id) with
    | some j => .ok j
    | none => .error .ErrNoRows

/-- The call `db.Get(&user, "SELECT * FROM users WHERE id = $1", id)`. -/
def DB.getUserByID (db : DB) (id : String) : Except DBError User :=
  match db.failure with
  | some msg => .error (.Failure msg)
  | none =>
    match db.users.find? (fun u => u.ID == id) with
    | some u => .ok u
    | none => .error .ErrNoRows

/-- The function `GetJob`: `sql.ErrNoRows` is not reported, the zero `Job` is
returned with a nil error. -/
def GetJob (id : String) (db : DB) : Job × Option DBError :=
  match db.getJobByID id with
  | .error err =>
    if err ≠ DBError.ErrNoRows then (Job.zero, some err) else (Job.zero, none)
  | .ok job => (job, none)

/-- The function `GetUser`: every error is returned. -/
def GetUser (id : String) (db : DB) : User × Option DBError :=
  match db.getUserByID id with
  | .error err => (User.zero, some err)
  | .ok user => (user, none)

/-- What `UPDATE jobs SET position = $1, organization = $2, url = $3,
description = $4, published_to_socials = $5 WHERE id = $6` does to a row. -/
def Job.updateRow (job : Job) (r : Job) : Job :=
  if r.ID == job.ID then
    { r with
      Position := job.Position
      Organization := job.Organization
      Url := job.Url
      Description := job.Description
      PublishedToSocials := job.PublishedToSocials }
  else r

/-- The method `Job.Save`: the `UPDATE jobs ...` statement. -/
def Job.Save (job : Job) (db : DB) : DB :=
  match db.failure with
  | some _ => db
  | none => { db with jobs := db.jobs.map job.updateRow }

/-- The method `Job.SetPublishedToSocials`; the result of `Save` is dropped. -/
def Job.SetPublishedToSocials (job : Job) (value : Bool) (db : DB) : Job × DB :=
  let job := { job with PublishedToSocials := value }
  (job, job.Save db)

/-! ## pkg/server: the authorization middleware -/

/-- The part of `gin.Context` the middleware touches. -/
structure Context where
  /-- The path parameter `id`. -/
  id : String
  /-- The query parameter `token` (empty when absent). -/
  token : String
  /-- The status written so far, if any. -/
  status : Option Nat
  /-- Whether the remaining handlers are skipped. -/
  aborted : Bool
  deriving DecidableEq, Repr

/-- A fresh context for a request. -/
def Context.new (id token : String) : Context :=
  { id := id, token := token, status := none, aborted := false }

/-- The method `gin.Context.AbortWithStatus`. -/
def Context.AbortWithStatus (ctx : Context) (code : Nat) : Context :=
  { ctx with status := some code, aborted := true }

/-- A gin handler: it may write to the store and to the context. -/
abbrev HandlerFunc := DB → Context → DB × Context

/-- How gin runs a handler chain: in order, until one aborts. -/
def runHandlers : List HandlerFunc → DB → Context → DB × Context
  | [], db, ctx => (db, ctx)
  | h :: hs, db, ctx =>
    let r := h db ctx
    if r.2.aborted then r else runHandlers hs r.1 r.2

def signatureForItem (env : Env) (item : DataModel) (secret : String) : String :=
  item.Hash env secret

/-- The middleware `requireAuthJobs`. -/
def requireAuthJobs (env : Env) (secret : String) : HandlerFunc := fun db ctx =>
  let jobID := ctx.id
  let (job, err) := GetJob jobID db
  if err.isSome then
    (db, ctx.AbortWithStatus 500)
  else
    let token := ctx.token
    let expected := signatureForItem env (DataModel.job job) secret
    if token ≠ expected then
      (db, ctx.AbortWithStatus 403)
    else
      (db, ctx)

/-- The middleware `requireAuthUsers`. -/
def requireAuthUsers (env : Env) (secret : String) : HandlerFunc := fun db ctx =>
  let userID := ctx.id
  let (user, err) := GetUser userID db
  if err.isSome then
    (db, ctx.AbortWithStatus 500)
  else
    let token := ctx.token
    let expected := signatureForItem env (DataModel.user user) secret
    if token ≠ expected then
      (db, ctx.AbortWithStatus 403)
    else
      (db, ctx)

/-! ## net/url: the verdict of `url.ParseRequestURI` -/

/-- The function `stringContainsCTLByte`. -/
def stringContainsCTLByte (s : List Char) : Bool :=
  s.any fun b => decide (b.toNat < 0x20) || b.toNat == 0x7f

def isAlpha (c : Char) : Bool :=
  (decide ('a'.toNat ≤ c.toNat) && decide (c.toNat ≤ 'z'.toNat)) ||
    (decide ('A'.toNat ≤ c.toNat) && decide (c.toNat ≤ 'Z'.toNat))

def isDigit (c : Char) : Bool :=
  decide ('0'.toNat ≤ c.toNat) && decide (c.toNat ≤ '9'.toNat)

/-- The function `ishex`. -/
def ishex (c : Char) : Bool :=
  isDigit c ||
    (decide ('a'.toNat ≤ c.toNat) && decide (c.toNat ≤ 'f'.toNat)) ||
    (decide ('A'.toNat ≤ c.toNat) && decide (c.toNat ≤ 'F'.toNat))

/-- The loop of `getScheme`, at index `i` with `cs` left to read. -/
def getSchemeFrom (rawURL : List Char) :
    Nat → List Char → Except String (List Char × List Char)
  | _, [] => .ok ([], rawURL)
  | i, c :: cs =>
    if isAlpha c then
      getSchemeFrom rawURL (i + 1) cs
    else if isDigit c || c == '+' || c == '-' || c == '.' then
      if i == 0 then .ok ([], rawURL) else getSchemeFrom rawURL (i + 1) cs
    else if c == ':' then
      if i == 0 then .error "missing protocol scheme" else .ok (rawURL.take i, cs)
    else
      .ok ([], rawURL)

/-- The function `getScheme`: the scheme and the rest, or an error. -/
def getScheme (rawURL : List Char) : Except String (List Char × List Char) :=
  getSchemeFrom rawURL 0 rawURL

/-- The function `strings.HasPrefix`. -/
def hasPrefix (s p : List Char) : Bool := p.isPrefixOf s

/-- The function `strings.HasSuffix`. -/
def hasSuffix (s p : List Char) : Bool := p.isSuffixOf s

/-- What `strings.Cut(s, sep)` returns before and after a one-character
separator. -/
def cut (s : List Char) (sep : Char) : List Char × List Char :=
  (s.takeWhile (fun c => c != sep), (s.dropWhile (fun c => c != sep)).drop 1)

/-- Whether `unescape(s, encodePath)` returns no error: every percent sign is
followed by two hexadecimal digits. -/
def unescapeOK : List Char → Bool
  | [] => true
  | c :: rest =>
    if c == '%' then
      match rest with
      | a :: b :: rest2 => ishex a && ishex b && unescapeOK rest2
      | _ => false
    else unescapeOK rest

/-- The error of `URL.setPath`. -/
def setPath (p : List Char) : Option String :=
  if unescapeOK p then none else some "invalid URL escape"

/-- The error of `parse(rawURL, true)`, `none` when it is nil. -/
def parse (env : Env) (rawURL : List Char) : Option String :=
  if stringContainsCTLByte rawURL then
    some "net/url: invalid control character in URL"
  else if rawURL == [] then
    some "empty url"
  else if rawURL == ['*'] then
    none
  else
    match getScheme rawURL with
    | .error err => some err
    | .ok (scheme, rest) =>
      let rest :=
        if hasSuffix rest ['?'] && rest.count '?' == 1 then rest.dropLast
        else (cut rest '?').1
      if !hasPrefix rest ['/'] then
        if scheme != [] then none else some "invalid URI for request"
      else if scheme != [] && hasPrefix rest ['/', '/'] then
        let authority := rest.drop 2
        let rest := authority.dropWhile (fun c => c != '/')
        let authority := authority.takeWhile (fun c => c != '/')
        if !env.parseAuthority authority then some "invalid authority"
        else setPath rest
      else
        setPath rest

/-- The error of `url.ParseRequestURI`, `none` when it is nil. -/
def ParseRequestURI (env : Env) (rawURL : String) : Option String :=
  parse env rawURL.data

/-- The error of `mail.ParseAddress`, `none` when it is nil: leading blanks are
skipped, an empty rest is the error "mail: no address". -/
def ParseAddress (env : Env) (address : String) : Option String :=
  let s := address.data.dropWhile fun c => c == ' ' || c == '\t'
  if s.isEmpty then some "mail: no address"
  else if env.parseAddressBody s then none
  else some "mail: invalid address"

/-! ## pkg/data: validation -/

/-- A Go `map[string]string`, as the list of its entries. -/
abbrev ErrMap := List (String × String)

/-- The assignment `errs[k] = v`. -/
def ErrMap.set : ErrMap → String → String → ErrMap
  | [], k, v => [(k, v)]
  | (k', v') :: rest, k, v =>
    if k' == k then (k, v) :: rest else (k', v') :: ErrMap.set rest k v

/-- The lookup `errs[k]`. -/
def ErrMap.get? (m : ErrMap) (k : String) : Option String := m.lookup k

/-- Whether `k` is a key of the map. -/
def ErrMap.hasKey (m : ErrMap) (k : String) : Bool := (m.get? k).isSome

/-- The method `NewJob.Validate`. -/
def NewJob.Validate (env : Env) (newJob : NewJob) (update : Bool) : ErrMap :=
  let errs : ErrMap := []
  let errs :=
    if newJob.Position == "" then errs.set "position" "Must provide a Position" else errs
  let errs :=
    if newJob.Organization == "" then
      errs.set "organization" "Must provide a Organization"
    else errs
  let errs :=
    if newJob.Url == "" && newJob.Description == "" then
      errs.set "url" "Must provide either a Url or a Description"
    else errs
  let errs :=
    if newJob.Description == "" then
      if (ParseRequestURI env newJob.Url).isSome then
        errs.set "url" "Must provide a valid Url"
      else errs
    else errs
  if !update then
    let errs :=
      if newJob.Email == "" then errs.set "email" "Must provide an Email Address" else errs
    let errs :=
      if (ParseAddress env newJob.Email).isSome then
        errs.set "email" "Must provide a valid Email"
      else errs
    errs
  else errs

/-! ## pkg/data: jobs due for posting -/

/-- A row of `jobs FULL JOIN users`: either side may be all NULL. -/
abbrev JoinRow := Option Job × Option User

/-- The rows of `jobs FULL JOIN users ON jobs.email = users.email`: every
matching pair, every job without a match, every user without a match. -/
def fullJoin (jobs : List Job) (users : List User) : List JoinRow :=
  (jobs.flatMap fun j =>
      match users.filter (fun u => j.Email == u.Email) with
      | [] => [(some j, none)]
      | us => us.map fun u => (some j, some u)) ++
    (users.filter fun u => !jobs.any fun j => j.Email == u.Email).map
      fun u => (none, some u)

/-- SQL `AND` over three-valued booleans (`none` is NULL). -/
def sqlAnd : Option Bool → Option Bool → Option Bool
  | some false, _ => some false
  | _, some false => some false
  | some true, some true => some true
  | _, _ => none

/-- The condition `jobs.published_to_socials = false AND users.verified = true`. -/
def whereClause (row : JoinRow) : Option Bool :=
  sqlAnd (row.1.map fun j => j.PublishedToSocials == false)
    (row.2.map fun u => u.Verified == true)

/-- The order `jobs.published_at DESC` (NULL first). -/
def publishedAtDesc (a b : JoinRow) : Prop :=
  match a.1, b.1 with
  | none, _ => True
  | some _, none => False
  | some x, some y => y.PublishedAt.unixNano ≤ x.PublishedAt.unixNano

instance : DecidableRel publishedAtDesc := fun a b => by
  unfold publishedAtDesc
  split <;> infer_instance

/-- The rows the `SELECT jobs.* ...` statement returns, before they are scanned
into `Job` values: `none` is a row whose columns are all NULL. -/
def selectJobsToPost (db : DB) : List (Option Job) :=
  (((fullJoin db.jobs db.users).filter fun row => whereClause row == some true).insertionSort
    publishedAtDesc).map fun row => row.1

/-- Scanning the rows into `[]Job`: a NULL column does not scan into a `string`. -/
def scanJobs : List (Option Job) → Except DBError (List Job)
  | [] => .ok []
  | none :: _ => .error (.Failure "sql: Scan error: converting NULL to string is unsupported")
  | some j :: rest =>
    match scanJobs rest with
    | .ok js => .ok (j :: js)
    | .error e => .error e

/-- The call `db.Select(&jobs, "SELECT jobs.* FROM jobs FULL JOIN users ...")`. -/
def DB.selectJobsToPost (db : DB) : Except DBError (List Job) :=
  match db.failure with
  | some msg => .error (.Failure msg)
  | none => scanJobs (JobBoard.selectJobsToPost db)

/-- The function `GetJobsToPostOnSocials`. -/
def GetJobsToPostOnSocials (db : DB) : Except DBError (List Job) :=
  match db.selectJobsToPost with
  | .error err => if err ≠ DBError.ErrNoRows then .error err else .ok []
  | .ok jobs => .ok jobs

/-! ## pkg/tasks: the social-publish sweep -/

/-- Modelled from the spec: the Twitter part of `config.Config` (the package
`pkg/config` is not among the sources); the field is the one the code reads. -/
structure TwitterConfig where
  AccessToken : String
  deriving DecidableEq, Repr

/-- Modelled from the spec: the type `config.Config` (the package `pkg/config`
is not among the sources); the fields are those the code reads. -/
structure Config where
  AppSecret : String
  SlackHook : String
  Twitter : TwitterConfig
  deriving DecidableEq, Repr

/-- What the sweep does to the outside: platform calls with their error (`none`
is nil), and calls of `Job.Save`. -/
inductive Event where
  | slack (job : Job) (err : Option String)
  | twitter (job : Job) (err : Option String)
  | save (job : Job)
  deriving DecidableEq, Repr

/-- Modelled from the spec: the operations `services.PostToSlack` and
`services.PostToTwitter` (the package `pkg/services` is not among the sources):
one operation per platform, returning an error or nil.  The outcome of a call
may depend on everything that happened before it. -/
structure Services where
  PostToSlack : List Event → Job → Config → Option String
  PostToTwitter : List Event → Job → Config → Option String

/-- The state a sweep runs in: the store, and the events so far. -/
abbrev TaskState := DB × List Event

/-- The method `TaskRunner.publishJobOnSocials`. -/
def publishJobOnSocials (svc : Services) (config : Config) (job : Job)
    (st : TaskState) : TaskState :=
  let db := st.1
  let log := st.2
  let log :=
    if config.SlackHook != "" then
      log ++ [Event.slack job (svc.PostToSlack log job config)]
    else log
  let log :=
    if config.Twitter.AccessToken != "" then
      log ++ [Event.twitter job (svc.PostToTwitter log job config)]
    else log
  let r := job.SetPublishedToSocials true db
  (r.2, log ++ [Event.save r.1])

/-- The method `TaskRunner.postUnpublishedJobs`. -/
def postUnpublishedJobs (svc : Services) (config : Config) (st : TaskState) : TaskState :=
  match GetJobsToPostOnSocials st.1 with
  | .error _ => st
  | .ok unPublishedJobs =>
    unPublishedJobs.foldl (fun st job => publishJobOnSocials svc config job st) st

/-- Whether a URL has a scheme, as `getScheme` reads it. -/
def hasScheme (rawURL : String) : Bool :=
  match getScheme rawURL.data with
  | .ok (scheme, _) => scheme != []
  | .error _ => false

/-- The spec's condition for a job to be due for posting: not yet published to
the socials, and its email is the email of a verified user. -/
def dueForPosting (users : List User) (j : Job) : Bool :=
  !j.PublishedToSocials && users.any fun u => u.Verified && u.Email == j.Email

/-- The users a job joins with and that pass the WHERE clause with it. -/
def matchesFor (users : List User) (j : Job) : List User :=
  users.filter fun u => j.Email == u.Email && (!j.PublishedToSocials && u.Verified)

instance instDecidableEqExcept {ε α : Type} [DecidableEq ε] [DecidableEq α] :
    DecidableEq (Except ε α) := fun a b =>
  match a, b with
  | .ok x, .ok y =>
    if h : x = y then isTrue (by rw [h]) else isFalse fun e => h (Except.ok.inj e)
  | .error x, .error y =>
    if h : x = y then isTrue (by rw [h]) else isFalse fun e => h (Except.error.inj e)
  | .ok _, .error _ => isFalse fun e => Except.noConfusion e
  | .error _, .ok _ => isFalse fun e => Except.noConfusion e

/-- The jobs `Job.Save` was called with, in order. -/
def savedJobs (log : List Event) : List Job :=
  log.filterMap fun e =>
    match e with
    | .save j => some j
    | _ => none

/-- The events added to `before` to give `after`. -/
def newEvents (before after : List Event) : List Event := after.drop before.length

/-- A job with its PublishedToSocials flag set. -/
def Job.marked (job : Job) : Job := { job with PublishedToSocials := true }

/-- A row of the jobs table after the sweep has handled the jobs `res`. -/
def sweepRow (res : List Job) (row : Job) : Job :=
  res.foldl (fun r job => job.marked.updateRow r) row

/-! ## Sample values used to instantiate the theorems -/

/-- A stand-in library: timestamps print as that many ticks, the digest is the
identity. -/
def sampleEnv : Env :=
  { timeString := fun t => String.mk (List.replicate t.unixNano.toNat '|')
    sha1Base64 := fun s => s
    parseAuthority := fun _ => true
    parseAddressBody := fun s => s.contains '@' }

def sampleJob : Job :=
  { ID := "7", Position := "Engineer", Organization := "Acme", Url := ⟨"", false⟩,
    Description := ⟨"Remote role", true⟩, Email := "a@b.c", PublishedAt := ⟨3⟩,
    PublishedToSocials := false }

def sampleUser : User :=
  { ID := "1", Email := "a@b.c", Verified := true, CreatedAt := ⟨2⟩ }

def sampleDB : DB := { jobs := [sampleJob], users := [sampleUser], failure := none }

/-- A store with a job of an unverified user, a due job and a published job. -/
def sampleStore : DB :=
  { jobs := [{ sampleJob with ID := "8", Email := "x@y.z" }, sampleJob,
      { sampleJob with ID := "9", PublishedToSocials := true }],
    users := [sampleUser, { sampleUser with ID := "2", Email := "x@y.z", Verified := false }],
    failure := none }

/-- Platforms that always fail. -/
def sampleServices : Services :=
  { PostToSlack := fun _ _ _ => some "slack: 500"
    PostToTwitter := fun _ _ _ => some "twitter: 401" }

def sampleConfig : Config :=
  { AppSecret := "s3cret", SlackHook := "https://hooks.example/x",
    Twitter := { AccessToken := "tok" } }

/-! ## Lemmas: the digest input -/

theorem digestInput_data (a b c d : String) :
    (digestInput a b c d).data = a.data ++ ':' :: (b.data ++ ':' :: (c.data ++ ':' :: d.data)) := by
  simp [digestInput, String.data_append]

/-- Two texts that split at their first colon split the same way. -/
theorem append_colon_inj {a a2 r r2 : List Char} (ha : ':' ∉ a) (ha2 : ':' ∉ a2)
    (h : a ++ ':' :: r = a2 ++ ':' :: r2) : a = a2 ∧ r = r2 := by
  induction a generalizing a2 with
  | nil =>
    cases a2 with
    | nil => simpa using h
    | cons x xs =>
      simp only [List.nil_append, List.cons_append, List.cons.injEq] at h
      exact absurd h.1.symm (fun hx => ha2 (by simp [hx]))
  | cons y ys ih =>
    cases a2 with
    | nil =>
      simp only [List.nil_append, List.cons_append, List.cons.injEq] at h
      exact absurd h.1 (fun hy => ha (by simp [hy]))
    | cons x xs =>
      simp only [List.cons_append, List.cons.injEq] at h
      have hys : ':' ∉ ys := fun hm => ha (List.mem_cons_of_mem _ hm)
      have hxs : ':' ∉ xs := fun hm => ha2 (List.mem_cons_of_mem _ hm)
      obtain ⟨h1, h2⟩ := ih hys hxs h.2
      exact ⟨by rw [h.1, h1], h2⟩

/-- Two texts that split at their last colon split the same way. -/
theorem append_colon_inj_right {c c2 d d2 : List Char} (hd : ':' ∉ d) (hd2 : ':' ∉ d2)
    (h : c ++ ':' :: d = c2 ++ ':' :: d2) : c = c2 ∧ d = d2 := by
  have hr : d.reverse ++ ':' :: c.reverse = d2.reverse ++ ':' :: c2.reverse := by
    have := congrArg List.reverse h
    simpa using this
  obtain ⟨h1, h2⟩ := append_colon_inj (by simpa using hd) (by simpa using hd2) hr
  exact ⟨List.reverse_injective h2, List.reverse_injective h1⟩

theorem digestInput_timestamp_inj {a b c c2 d : String}
    (h : digestInput a b c d = digestInput a b c2 d) : c = c2 := by
  have hd := congrArg String.data h
  rw [digestInput_data, digestInput_data] at hd
  have h1 := List.append_cancel_left hd
  simp only [List.cons.injEq, true_and] at h1
  have h2 := List.append_cancel_left h1
  simp only [List.cons.injEq, true_and] at h2
  have h3 : c.data ++ (':' :: d.data) = c2.data ++ (':' :: d.data) := h2
  exact String.ext (List.append_cancel_right h3)

/-! ## Lemmas: the middleware -/

theorem requireAuthJobs_found (env : Env) (secret : String) {db : DB} {ctx : Context}
    {job : Job} (h : GetJob ctx.id db = (job, none)) :
    requireAuthJobs env secret db ctx =
      if ctx.token ≠ job.Hash env secret then (db, ctx.AbortWithStatus 403) else (db, ctx) := by
  simp [requireAuthJobs, h, signatureForItem, DataModel.Hash]

theorem requireAuthUsers_found (env : Env) (secret : String) {db : DB} {ctx : Context}
    {user : User} (h : GetUser ctx.id db = (user, none)) :
    requireAuthUsers env secret db ctx =
      if ctx.token ≠ user.Hash env secret then (db, ctx.AbortWithStatus 403) else (db, ctx) := by
  simp [requireAuthUsers, h, signatureForItem, DataModel.Hash]

theorem requireAuthJobs_store (env : Env) (secret : String) (db : DB) (ctx : Context) :
    (requireAuthJobs env secret db ctx).1 = db := by
  unfold requireAuthJobs
  simp only []
  split <;> (try split) <;> rfl

theorem requireAuthUsers_store (env : Env) (secret : String) (db : DB) (ctx : Context) :
    (requireAuthUsers env secret db ctx).1 = db := by
  unfold requireAuthUsers
  simp only []
  split <;> (try split) <;> rfl

theorem runHandlers_pair (mw next : HandlerFunc) (db : DB) (ctx : Context) :
    runHandlers [mw, next] db ctx =
      if (mw db ctx).2.aborted then mw db ctx
      else next (mw db ctx).1 (mw db ctx).2 := by
  simp only [runHandlers]
  split
  · rfl
  · split <;> rfl

theorem GetJob_missing {db : DB} {id : String} (hf : db.failure = none)
    (hid : ∀ j ∈ db.jobs, j.ID ≠ id) : GetJob id db = (Job.zero, none) := by
  have hfind : db.jobs.find? (fun j => j.ID == id) = none := by
    rw [List.find?_eq_none]
    intro j hj
    simpa using hid j hj
  simp [GetJob, DB.getJobByID, hf, hfind]

theorem GetJob_failure {db : DB} {id msg : String} (hf : db.failure = some msg) :
    GetJob id db = (Job.zero, some (DBError.Failure msg)) := by
  simp [GetJob, DB.getJobByID, hf]

/-! ## Lemmas: jobs due for posting -/

theorem whereClause_pair (j : Job) (u : User) :
    (whereClause (some j, some u) == some true) = (!j.PublishedToSocials && u.Verified) := by
  cases hp : j.PublishedToSocials <;> cases hv : u.Verified <;>
    simp [whereClause, sqlAnd, hp, hv]

theorem whereClause_no_user (j : Job) : (whereClause (some j, none) == some true) = false := by
  cases hp : j.PublishedToSocials <;> simp [whereClause, sqlAnd, hp]

theorem whereClause_no_job (u : User) : (whereClause (none, some u) == some true) = false := by
  cases hv : u.Verified <;> simp [whereClause, sqlAnd, hv]

theorem filter_where_pairs (j : Job) (us : List User) :
    (us.map fun u => ((some j, some u) : JoinRow)).filter
        (fun row => whereClause row == some true) =
      (us.filter fun u => !j.PublishedToSocials && u.Verified).map
        fun u => ((some j, some u) : JoinRow) := by
  induction us with
  | nil => rfl
  | cons u us ih =>
    simp only [List.map_cons, List.filter_cons, whereClause_pair, ih]
    split <;> simp

theorem filter_where_no_job (us : List User) :
    (us.map fun u => ((none, some u) : JoinRow)).filter
        (fun row => whereClause row == some true) = [] := by
  induction us with
  | nil => rfl
  | cons u us ih => simp [List.filter_cons, whereClause_no_job, ih]

/-- The rows of the join that pass the WHERE clause are pairs of a job and a
user, one for each match. -/
theorem filter_fullJoin (jobs : List Job) (users : List User) :
    (fullJoin jobs users).filter (fun row => whereClause row == some true) =
      jobs.flatMap fun j => (matchesFor users j).map fun u => ((some j, some u) : JoinRow) := by
  unfold fullJoin
  rw [List.filter_append, filter_where_no_job, List.append_nil]
  induction jobs with
  | nil => rfl
  | cons j js ih =>
    simp only [List.flatMap_cons, List.filter_append, ih]
    congr 1
    have hm : matchesFor users j =
        (users.filter fun u => j.Email == u.Email).filter
          fun u => !j.PublishedToSocials && u.Verified := by
      simp [matchesFor, List.filter_filter, Bool.and_comm]
    rw [hm]
    split
    · rename_i h
      simp [h, List.filter_cons, whereClause_no_user]
    · exact filter_where_pairs j _

theorem matchesFor_nil_of_no_email {users : List User} {j : Job}
    (h : j.Email ∉ users.map fun u => u.Email) : matchesFor users j = [] := by
  unfold matchesFor
  rw [List.filter_eq_nil_iff]
  intro u hu
  have hne : j.Email ≠ u.Email := fun e => h (by rw [e]; exact List.mem_map_of_mem _ hu)
  simp [hne]

theorem dueForPosting_cons_of_ne {u : User} {users : List User} {j : Job}
    (h : j.Email ≠ u.Email) : dueForPosting (u :: users) j = dueForPosting users j := by
  have h2 : (u.Email == j.Email) = false := by simpa using fun e => h e.symm
  simp [dueForPosting, h2]

/-- With unique user emails a job passes with at most one user, and with one
exactly when it is due. -/
theorem matchesFor_map_const (users : List User) (j : Job)
    (hu : (users.map fun u => u.Email).Nodup) :
    (matchesFor users j).map (fun _ => j) = if dueForPosting users j then [j] else [] := by
  induction users with
  | nil => simp [matchesFor, dueForPosting]
  | cons u us ih =>
    simp only [List.map_cons, List.nodup_cons] at hu
    by_cases he : j.Email = u.Email
    · have hrest : matchesFor us j = [] := matchesFor_nil_of_no_email (by rw [he]; exact hu.1)
      have hany : (us.any fun x => x.Verified && x.Email == j.Email) = false := by
        rw [List.any_eq_false]
        intro x hx
        have hne : x.Email ≠ j.Email := by
          intro e
          apply hu.1
          rw [← he, ← e]
          exact List.mem_map_of_mem _ hx
        simp [hne]
      have hm : matchesFor (u :: us) j =
          if (!j.PublishedToSocials && u.Verified) = true then [u] else [] := by
        have : matchesFor (u :: us) j =
            if (j.Email == u.Email && (!j.PublishedToSocials && u.Verified)) = true
              then u :: matchesFor us j else matchesFor us j := by
          simp only [matchesFor, List.filter_cons]
        rw [this, hrest]
        simp [he]
      rw [hm]
      have hd : dueForPosting (u :: us) j = (!j.PublishedToSocials && u.Verified) := by
        rw [← he] at hu
        simp [dueForPosting, hany, he]
        rw [← he, hany]
        simp
      rw [hd]
      split <;> rfl
    · have hm : matchesFor (u :: us) j = matchesFor us j := by
        have h2 : (j.Email == u.Email) = false := by simpa using he
        simp only [matchesFor, List.filter_cons, h2, Bool.false_and]
        rfl
      rw [hm, dueForPosting_cons_of_ne he]
      exact ih hu.2

theorem flatMap_matches_eq_filter (jobs : List Job) (users : List User)
    (hu : (users.map fun u => u.Email).Nodup) :
    (jobs.flatMap fun j => (matchesFor users j).map fun _ => j) =
      jobs.filter (dueForPosting users) := by
  induction jobs with
  | nil => rfl
  | cons j js ih =>
    simp only [List.flatMap_cons, List.filter_cons, ih, matchesFor_map_const users j hu]
    split <;> rfl

theorem filterMap_fst_pairs (jobs : List Job) (users : List User) :
    (jobs.flatMap fun j =>
        (matchesFor users j).map fun u => ((some j, some u) : JoinRow)).filterMap
        (fun row => row.1) =
      jobs.flatMap fun j => (matchesFor users j).map fun _ => j := by
  induction jobs with
  | nil => rfl
  | cons j js ih =>
    simp only [List.flatMap_cons, List.filterMap_append, ih]
    congr 1
    induction matchesFor users j with
    | nil => rfl
    | cons u us ih2 => simp [List.filterMap_cons, ih2]

theorem map_eq_map_some_filterMap {α β : Type} (f : α → Option β) (l : List α)
    (h : ∀ x ∈ l, (f x).isSome = true) : l.map f = (l.filterMap f).map some := by
  induction l with
  | nil => rfl
  | cons x xs ih =>
    have hx := h x (List.mem_cons_self _ _)
    have hxs := ih fun y hy => h y (List.mem_cons_of_mem _ hy)
    cases hfx : f x with
    | none => rw [hfx] at hx; exact absurd hx (by simp)
    | some b => simp [List.filterMap_cons, hfx, hxs]

theorem scanJobs_map_some (l : List Job) : scanJobs (l.map some) = .ok l := by
  induction l with
  | nil => rfl
  | cons j js ih => simp [scanJobs, ih]

/-- The rows that pass the WHERE clause, in the order of the statement. -/
theorem selectJobsToPost_rows (db : DB) :
    ∀ row ∈ ((fullJoin db.jobs db.users).filter
        fun row => whereClause row == some true).insertionSort publishedAtDesc,
      ∃ j u, row = (some j, some u) ∧ j ∈ db.jobs ∧ u ∈ matchesFor db.users j := by
  intro row hrow
  have hperm := List.perm_insertionSort publishedAtDesc
    ((fullJoin db.jobs db.users).filter fun row => whereClause row == some true)
  have hmem := hperm.mem_iff.1 hrow
  rw [filter_fullJoin, List.mem_flatMap] at hmem
  obtain ⟨j, hj, hm⟩ := hmem
  rw [List.mem_map] at hm
  obtain ⟨u, hu, he⟩ := hm
  exact ⟨j, u, he.symm, hj, hu⟩

/-- The statement as a whole: the rows scan, and they are the due jobs up to
order, when user emails are unique. -/
theorem GetJobsToPostOnSocials_ok (db : DB) (hf : db.failure = none) :
    ∃ res : List Job,
      selectJobsToPost db = res.map some ∧
      GetJobsToPostOnSocials db = .ok res ∧
      res.Perm (db.jobs.flatMap fun j => (matchesFor db.users j).map fun _ => j) := by
  let sorted := ((fullJoin db.jobs db.users).filter
    fun row => whereClause row == some true).insertionSort publishedAtDesc
  have hsel : selectJobsToPost db = (sorted.filterMap fun row => row.1).map some := by
    have : selectJobsToPost db = sorted.map fun row => row.1 := rfl
    rw [this]
    apply map_eq_map_some_filterMap
    intro row hrow
    obtain ⟨j, u, he, _, _⟩ := selectJobsToPost_rows db row hrow
    rw [he]
    rfl
  refine ⟨sorted.filterMap fun row => row.1, hsel, ?_, ?_⟩
  · simp only [GetJobsToPostOnSocials, DB.selectJobsToPost, hf, hsel, scanJobs_map_some]
  · have hperm := List.perm_insertionSort publishedAtDesc
      ((fullJoin db.jobs db.users).filter fun row => whereClause row == some true)
    have h2 := hperm.filterMap fun row => row.1
    rw [filter_fullJoin db.jobs db.users, filterMap_fst_pairs] at h2
    have h3 : sorted = List.insertionSort publishedAtDesc
        (db.jobs.flatMap fun j =>
          (matchesFor db.users j).map fun u => ((some j, some u) : JoinRow)) := by
      show List.insertionSort publishedAtDesc _ = _
      rw [filter_fullJoin db.jobs db.users]
    rw [h3]
    exact h2

/-! ## Lemmas: the sweep -/

theorem updateRow_ID (job r : Job) : (job.updateRow r).ID = r.ID := by
  unfold Job.updateRow; split <;> rfl

theorem updateRow_Email (job r : Job) : (job.updateRow r).Email = r.Email := by
  unfold Job.updateRow; split <;> rfl

theorem updateRow_PublishedAt (job r : Job) :
    (job.updateRow r).PublishedAt = r.PublishedAt := by
  unfold Job.updateRow; split <;> rfl

theorem updateRow_published (job r : Job) (hj : job.PublishedToSocials = true)
    (h : r.PublishedToSocials = true ∨ r.ID = job.ID) :
    (job.updateRow r).PublishedToSocials = true := by
  unfold Job.updateRow
  split
  · exact hj
  · rename_i hne
    rcases h with h | h
    · exact h
    · exact absurd (by simpa using h) hne

theorem sweepRow_cons (job : Job) (res : List Job) (row : Job) :
    sweepRow (job :: res) row = sweepRow res (job.marked.updateRow row) := rfl

theorem sweepRow_keys (res : List Job) :
    ∀ row : Job, (sweepRow res row).ID = row.ID ∧ (sweepRow res row).Email = row.Email ∧
      (sweepRow res row).PublishedAt = row.PublishedAt := by
  induction res with
  | nil => intro row; exact ⟨rfl, rfl, rfl⟩
  | cons job res ih =>
    intro row
    rw [sweepRow_cons]
    obtain ⟨h1, h2, h3⟩ := ih (job.marked.updateRow row)
    rw [h1, h2, h3]
    exact ⟨updateRow_ID _ _, updateRow_Email _ _, updateRow_PublishedAt _ _⟩

theorem sweepRow_published (res : List Job) :
    ∀ row : Job, (row.PublishedToSocials = true ∨ ∃ j ∈ res, j.ID = row.ID) →
      (sweepRow res row).PublishedToSocials = true := by
  induction res with
  | nil =>
    intro row h
    rcases h with h | ⟨j, hj, _⟩
    · exact h
    · exact absurd hj (List.not_mem_nil j)
  | cons job res ih =>
    intro row h
    rw [sweepRow_cons]
    rcases h with h | ⟨j, hj, hid⟩
    · exact ih _ (Or.inl (updateRow_published _ _ rfl (Or.inl h)))
    · rcases List.mem_cons.1 hj with hj | hj
      · subst hj
        exact ih _ (Or.inl (updateRow_published _ _ rfl (Or.inr hid.symm)))
      · exact ih _ (Or.inr ⟨j, hj, by rw [updateRow_ID]; exact hid⟩)

theorem Save_jobs {job : Job} {db : DB} (hf : db.failure = none) :
    job.Save db = ⟨db.jobs.map job.updateRow, db.users, db.failure⟩ := by
  simp [Job.Save, hf]

theorem savedJobs_append (a b : List Event) : savedJobs (a ++ b) = savedJobs a ++ savedJobs b := by
  simp [savedJobs, List.filterMap_append]

theorem newEvents_append (a b : List Event) : newEvents a (a ++ b) = b := by
  simp [newEvents]

/-- The events one call of `publishJobOnSocials` adds. -/
theorem publishJobOnSocials_log (svc : Services) (config : Config) (job : Job)
    (st : TaskState) :
    (publishJobOnSocials svc config job st).2 =
      st.2 ++
        ((if config.SlackHook ≠ "" then
            [Event.slack job (svc.PostToSlack st.2 job config)] else []) ++
          (if config.Twitter.AccessToken ≠ "" then
            [Event.twitter job
              (svc.PostToTwitter
                (st.2 ++ if config.SlackHook ≠ "" then
                  [Event.slack job (svc.PostToSlack st.2 job config)] else [])
                job config)] else []) ++
          [Event.save job.marked]) := by
  unfold publishJobOnSocials
  by_cases h1 : config.SlackHook = "" <;> by_cases h2 : config.Twitter.AccessToken = "" <;>
    simp [h1, h2, Job.SetPublishedToSocials, Job.marked]

theorem publishJobOnSocials_store (svc : Services) (config : Config) (job : Job)
    (st : TaskState) :
    (publishJobOnSocials svc config job st).1 = job.marked.Save st.1 := rfl

theorem publishJobOnSocials_saved (svc : Services) (config : Config) (job : Job)
    (st : TaskState) :
    savedJobs (publishJobOnSocials svc config job st).2 = savedJobs st.2 ++ [job.marked] := by
  rw [publishJobOnSocials_log]
  by_cases h1 : config.SlackHook = "" <;> by_cases h2 : config.Twitter.AccessToken = "" <;>
    simp [h1, h2, savedJobs, List.filterMap_append]

/-- The store and the saves after the loop of `postUnpublishedJobs`. -/
theorem sweep_fold (svc : Services) (config : Config) (res : List Job) :
    ∀ st : TaskState, st.1.failure = none →
      (res.foldl (fun st job => publishJobOnSocials svc config job st) st).1 =
          ⟨st.1.jobs.map (sweepRow res), st.1.users, st.1.failure⟩ ∧
      savedJobs (res.foldl (fun st job => publishJobOnSocials svc config job st) st).2 =
          savedJobs st.2 ++ res.map Job.marked := by
  induction res with
  | nil =>
    intro st _
    have hid : sweepRow [] = fun r => r := rfl
    simp [hid]
  | cons job res ih =>
    intro st hf
    simp only [List.foldl_cons]
    have hstore : (publishJobOnSocials svc config job st).1 =
        ⟨st.1.jobs.map job.marked.updateRow, st.1.users, st.1.failure⟩ := by
      rw [publishJobOnSocials_store, Save_jobs hf]
    have hf2 : (publishJobOnSocials svc config job st).1.failure = none := by
      rw [hstore]; exact hf
    obtain ⟨h1, h2⟩ := ih (publishJobOnSocials svc config job st) hf2
    constructor
    · rw [h1, hstore]
      simp only [List.map_map]
      rfl
    · rw [h2, publishJobOnSocials_saved]
      simp

theorem mem_matchesFor {users : List User} {j : Job} {u : User} :
    u ∈ matchesFor users j ↔
      u ∈ users ∧ j.Email = u.Email ∧ j.PublishedToSocials = false ∧ u.Verified = true := by
  simp [matchesFor, List.mem_filter]

theorem sweep_log_extends (svc : Services) (config : Config) (res : List Job) :
    ∀ st : TaskState, ∃ new : List Event,
      (res.foldl (fun st job => publishJobOnSocials svc config job st) st).2 = st.2 ++ new := by
  induction res with
  | nil => intro st; exact ⟨[], by simp⟩
  | cons job res ih =>
    intro st
    obtain ⟨new, hnew⟩ := ih (publishJobOnSocials svc config job st)
    simp only [List.foldl_cons]
    rw [hnew, publishJobOnSocials_log, List.append_assoc]
    exact ⟨_, rfl⟩

/-- After the rows of the due jobs are marked, no job is due. -/
theorem no_job_due_after_sweep (db : DB) (hf : db.failure = none) (res : List Job)
    (hperm : res.Perm (db.jobs.flatMap fun j => (matchesFor db.users j).map fun _ => j)) :
    GetJobsToPostOnSocials ⟨db.jobs.map (sweepRow res), db.users, db.failure⟩ = .ok [] := by
  obtain ⟨res2, _, hget2, hperm2⟩ :=
    GetJobsToPostOnSocials_ok ⟨db.jobs.map (sweepRow res), db.users, db.failure⟩ hf
  have hnil : res2 = [] := by
    rw [List.eq_nil_iff_forall_not_mem]
    intro x hx
    have hx2 := hperm2.mem_iff.1 hx
    simp only [List.mem_flatMap, List.mem_map] at hx2
    obtain ⟨row2, ⟨row, hrow, hrow2⟩, u, hu, _⟩ := hx2
    rw [mem_matchesFor] at hu
    obtain ⟨hu1, hemail, hpub, hver⟩ := hu
    subst hrow2
    obtain ⟨_, hkE, _⟩ := sweepRow_keys res row
    have hrowpub : row.PublishedToSocials = false := by
      cases hp : row.PublishedToSocials with
      | false => rfl
      | true =>
        rw [sweepRow_published res row (Or.inl hp)] at hpub
        exact absurd hpub (by simp)
    have hdue : row ∈ res := by
      apply hperm.mem_iff.2
      simp only [List.mem_flatMap, List.mem_map]
      exact ⟨row, hrow, u, mem_matchesFor.2 ⟨hu1, by rw [← hkE]; exact hemail, hrowpub, hver⟩,
        rfl⟩
    rw [sweepRow_published res row (Or.inr ⟨row, hdue, rfl⟩)] at hpub
    exact absurd hpub (by simp)
  rw [hget2, hnil]

/-! ## Theorems: signed links -/

/-- C1: for a resource the lookup returns without error, the middleware aborts
with status 403 exactly when the supplied token differs from the hash of the
resource; on a match it leaves the context as it was and the wrapped handler
runs; on a mismatch the wrapped handler does not run; the store is never
written.  This holds for the job and for the user middleware. -/
theorem requireAuth_forbidden_iff_token_mismatch (env : Env) (secret : String) (db : DB)
    (ctx : Context) (next : HandlerFunc) (hctx : ctx.aborted = false) :
    (∀ job : Job, GetJob ctx.id db = (job, none) →
      (((requireAuthJobs env secret db ctx).2.aborted = true ∧
          (requireAuthJobs env secret db ctx).2.status = some 403) ↔
        ctx.token ≠ job.Hash env secret) ∧
      (ctx.token = job.Hash env secret →
        (requireAuthJobs env secret db ctx).2 = ctx ∧
        runHandlers [requireAuthJobs env secret, next] db ctx = next db ctx) ∧
      (ctx.token ≠ job.Hash env secret →
        runHandlers [requireAuthJobs env secret, next] db ctx =
          (db, ctx.AbortWithStatus 403)) ∧
      (requireAuthJobs env secret db ctx).1 = db) ∧
    (∀ user : User, GetUser ctx.id db = (user, none) →
      (((requireAuthUsers env secret db ctx).2.aborted = true ∧
          (requireAuthUsers env secret db ctx).2.status = some 403) ↔
        ctx.token ≠ user.Hash env secret) ∧
      (ctx.token = user.Hash env secret →
        (requireAuthUsers env secret db ctx).2 = ctx ∧
        runHandlers [requireAuthUsers env secret, next] db ctx = next db ctx) ∧
      (ctx.token ≠ user.Hash env secret →
        runHandlers [requireAuthUsers env secret, next] db ctx =
          (db, ctx.AbortWithStatus 403)) ∧
      (requireAuthUsers env secret db ctx).1 = db) := by
  constructor
  · intro job hjob
    have hmw := requireAuthJobs_found env secret hjob
    refine ⟨?_, ?_, ?_, requireAuthJobs_store env secret db ctx⟩
    · rw [hmw]
      by_cases ht : ctx.token = job.Hash env secret
      · simp [ht, hctx]
      · simp [ht, Context.AbortWithStatus]
    · intro ht
      rw [runHandlers_pair, hmw]
      simp [ht, hctx]
    · intro ht
      rw [runHandlers_pair, hmw]
      simp [ht, Context.AbortWithStatus]
  · intro user huser
    have hmw := requireAuthUsers_found env secret huser
    refine ⟨?_, ?_, ?_, requireAuthUsers_store env secret db ctx⟩
    · rw [hmw]
      by_cases ht : ctx.token = user.Hash env secret
      · simp [ht, hctx]
      · simp [ht, Context.AbortWithStatus]
    · intro ht
      rw [runHandlers_pair, hmw]
      simp [ht, hctx]
    · intro ht
      rw [runHandlers_pair, hmw]
      simp [ht, Context.AbortWithStatus]

/-- C1, at a request for the sample job with a wrong token: it is stopped with
status 403 and the store is as before. -/
theorem requireAuth_forbidden_iff_token_mismatch_witness :
    (Context.new "7" "forged").aborted = false ∧
    GetJob (Context.new "7" "forged").id sampleDB = (sampleJob, none) ∧
    (Context.new "7" "forged").token ≠ sampleJob.Hash sampleEnv "s3cret" ∧
    runHandlers [requireAuthJobs sampleEnv "s3cret", fun db c => (db, c)] sampleDB
        (Context.new "7" "forged") =
      (sampleDB, (Context.new "7" "forged").AbortWithStatus 403) :=
  ⟨rfl, by decide, by decide,
    ((requireAuth_forbidden_iff_token_mismatch sampleEnv "s3cret" sampleDB
      (Context.new "7" "forged") (fun db c => (db, c)) rfl).1 sampleJob (by decide)).2.2.1
      (by decide)⟩

/-- C2 as stated fails: for an ID that is in no row of the jobs table, on a store
that works, the job middleware does not answer 500; the request for job "404"
on the sample store is answered 403. -/
theorem requireAuthJobs_missing_job_not_500 :
    ¬ (∀ (env : Env) (secret : String) (db : DB) (ctx : Context),
        ctx.aborted = false → (∀ j ∈ db.jobs, j.ID ≠ ctx.id) →
        requireAuthJobs env secret db ctx = (db, ctx.AbortWithStatus 500)) ∧
    requireAuthJobs sampleEnv "s3cret" sampleDB (Context.new "404" "forged") =
      (sampleDB, (Context.new "404" "forged").AbortWithStatus 403) := by
  refine ⟨fun h => ?_, by decide⟩
  have h1 := h sampleEnv "s3cret" sampleDB (Context.new "404" "forged") rfl (by decide)
  revert h1
  decide

/-- C2, amended: when the store fails, the job middleware answers 500 and the
wrapped handler does not run, whatever the token; when the store works and no
row has the ID, `GetJob` returns the zero job with a nil error, and every token
other than the hash of the zero job is answered 403, the wrapped handler not
running. -/
theorem requireAuthJobs_lookup_failure (env : Env) (secret : String) (db : DB)
    (ctx : Context) (next : HandlerFunc) :
    (∀ msg : String, db.failure = some msg →
      requireAuthJobs env secret db ctx = (db, ctx.AbortWithStatus 500) ∧
      runHandlers [requireAuthJobs env secret, next] db ctx =
        (db, ctx.AbortWithStatus 500)) ∧
    (db.failure = none → (∀ j ∈ db.jobs, j.ID ≠ ctx.id) →
      GetJob ctx.id db = (Job.zero, none) ∧
      (ctx.token ≠ Job.zero.Hash env secret →
        requireAuthJobs env secret db ctx = (db, ctx.AbortWithStatus 403) ∧
        runHandlers [requireAuthJobs env secret, next] db ctx =
          (db, ctx.AbortWithStatus 403))) := by
  constructor
  · intro msg hf
    have hmw : requireAuthJobs env secret db ctx = (db, ctx.AbortWithStatus 500) := by
      simp [requireAuthJobs, GetJob_failure hf]
    refine ⟨hmw, ?_⟩
    rw [runHandlers_pair, hmw]
    simp [Context.AbortWithStatus]
  · intro hf hid
    have hget := GetJob_missing hf hid
    refine ⟨hget, fun ht => ?_⟩
    have hmw : requireAuthJobs env secret db ctx = (db, ctx.AbortWithStatus 403) := by
      rw [requireAuthJobs_found env secret hget]
      simp [ht]
    refine ⟨hmw, ?_⟩
    rw [runHandlers_pair, hmw]
    simp [Context.AbortWithStatus]

/-- C2, amended, on the sample store: a failing store gives 500, a missing ID
gives 403. -/
theorem requireAuthJobs_lookup_failure_witness :
    requireAuthJobs sampleEnv "s3cret" { sampleDB with failure := some "connection refused" }
        (Context.new "7" "forged") =
      ({ sampleDB with failure := some "connection refused" },
        (Context.new "7" "forged").AbortWithStatus 500) ∧
    requireAuthJobs sampleEnv "s3cret" sampleDB (Context.new "404" "forged") =
      (sampleDB, (Context.new "404" "forged").AbortWithStatus 403) :=
  ⟨((requireAuthJobs_lookup_failure sampleEnv "s3cret"
      { sampleDB with failure := some "connection refused" } (Context.new "7" "forged")
      (fun db c => (db, c))).1 "connection refused" rfl).1,
    (((requireAuthJobs_lookup_failure sampleEnv "s3cret" sampleDB
      (Context.new "404" "forged") (fun db c => (db, c))).2 rfl (by decide)).2
      (by decide)).1⟩

/-- C3: two jobs that agree on ID, Email and PublishedAt have the same hash under
every secret, whatever their other fields; `Job.Update` leaves ID, Email,
PublishedAt and PublishedToSocials unchanged, so the hash is the same after an
update, and a token issued before the update passes the middleware after it. -/
theorem Job.Hash_signing_fields (env : Env) (secret : String) :
    (∀ j1 j2 : Job, j1.ID = j2.ID → j1.Email = j2.Email →
      j1.PublishedAt = j2.PublishedAt → j1.Hash env secret = j2.Hash env secret) ∧
    (∀ (j : Job) (p : NewJob),
      (j.Update p).ID = j.ID ∧ (j.Update p).Email = j.Email ∧
      (j.Update p).PublishedAt = j.PublishedAt ∧
      (j.Update p).PublishedToSocials = j.PublishedToSocials ∧
      (j.Update p).Hash env secret = j.Hash env secret ∧
      (∀ (db : DB) (ctx : Context), GetJob ctx.id db = (j.Update p, none) →
        ctx.token = j.Hash env secret → requireAuthJobs env secret db ctx = (db, ctx))) := by
  constructor
  · intro j1 j2 hid hemail hat
    simp only [Job.Hash, hid, hemail, hat]
  · intro j p
    refine ⟨rfl, rfl, rfl, rfl, rfl, ?_⟩
    intro db ctx hget ht
    rw [requireAuthJobs_found env secret hget]
    have hh : (j.Update p).Hash env secret = j.Hash env secret := rfl
    simp [hh, ht]

/-- C3, at the sample job and a job that differs from it in every field that is
not a signing field. -/
theorem Job.Hash_signing_fields_witness :
    sampleJob.Hash sampleEnv "s3cret" =
      Job.Hash sampleEnv
        { sampleJob with
          Position := "Manager", Organization := "Initech",
          Url := ⟨"https://example.org", true⟩, Description := ⟨"", false⟩,
          PublishedToSocials := true } "s3cret" :=
  (Job.Hash_signing_fields sampleEnv "s3cret").1 sampleJob _ rfl rfl rfl

/-- C4: take a job and change only its PublishedAt, to a timestamp that prints
differently.  Then the digest input changes; if moreover the digest does not
collide on the two inputs, the hash changes, and the middleware, loading the
changed job, answers a request carrying the old hash with 403 and does not run
the wrapped handler. -/
theorem Job.Hash_revoked_by_PublishedAt (env : Env) (secret : String) (j : Job) (t : Time)
    (ht : t ≠ j.PublishedAt)
    (hprint : env.timeString t = env.timeString j.PublishedAt → t = j.PublishedAt)
    (hsha : env.sha1Base64 (digestInput j.ID j.Email (env.timeString t) secret) =
        env.sha1Base64 (digestInput j.ID j.Email (env.timeString j.PublishedAt) secret) →
      digestInput j.ID j.Email (env.timeString t) secret =
        digestInput j.ID j.Email (env.timeString j.PublishedAt) secret) :
    digestInput j.ID j.Email (env.timeString t) secret ≠
        digestInput j.ID j.Email (env.timeString j.PublishedAt) secret ∧
    Job.Hash env { j with PublishedAt := t } secret ≠ j.Hash env secret ∧
    (∀ (db : DB) (ctx : Context) (next : HandlerFunc),
      GetJob ctx.id db = ({ j with PublishedAt := t }, none) →
      ctx.token = j.Hash env secret →
      requireAuthJobs env secret db ctx = (db, ctx.AbortWithStatus 403) ∧
      runHandlers [requireAuthJobs env secret, next] db ctx =
        (db, ctx.AbortWithStatus 403)) := by
  have hinput : digestInput j.ID j.Email (env.timeString t) secret ≠
      digestInput j.ID j.Email (env.timeString j.PublishedAt) secret :=
    fun h => ht (hprint (digestInput_timestamp_inj h))
  have hhash : Job.Hash env { j with PublishedAt := t } secret ≠ j.Hash env secret :=
    fun h => hinput (hsha h)
  refine ⟨hinput, hhash, ?_⟩
  intro db ctx next hget htok
  have hmw : requireAuthJobs env secret db ctx = (db, ctx.AbortWithStatus 403) := by
    rw [requireAuthJobs_found env secret hget, htok]
    simp [Ne.symm hhash]
  refine ⟨hmw, ?_⟩
  rw [runHandlers_pair, hmw]
  simp [Context.AbortWithStatus]

/-- C4, at the sample job republished two ticks later: the old token is
answered 403. -/
theorem Job.Hash_revoked_by_PublishedAt_witness :
    (⟨5⟩ : Time) ≠ sampleJob.PublishedAt ∧
    requireAuthJobs sampleEnv "s3cret"
        { jobs := [{ sampleJob with PublishedAt := ⟨5⟩ }], users := [], failure := none }
        (Context.new "7" (sampleJob.Hash sampleEnv "s3cret")) =
      ({ jobs := [{ sampleJob with PublishedAt := ⟨5⟩ }], users := [], failure := none },
        (Context.new "7" (sampleJob.Hash sampleEnv "s3cret")).AbortWithStatus 403) :=
  ⟨by decide,
    ((Job.Hash_revoked_by_PublishedAt sampleEnv "s3cret" sampleJob ⟨5⟩ (by decide)
      (by decide) (fun h => h)).2.2
      { jobs := [{ sampleJob with PublishedAt := ⟨5⟩ }], users := [], failure := none }
      (Context.new "7" (sampleJob.Hash sampleEnv "s3cret")) (fun db c => (db, c))
      (by decide) rfl).1⟩

/-- C5 as stated fails: the digest input is not injective in its four fields.
A colon inside a field moves the field boundary: ID "a:b" with Email "c" and
ID "a" with Email "b:c" give the same digest input. -/
theorem digestInput_not_injective :
    ¬ (∀ id email ts secret id2 email2 ts2 secret2 : String,
        digestInput id email ts secret = digestInput id2 email2 ts2 secret2 →
        id = id2 ∧ email = email2 ∧ ts = ts2 ∧ secret = secret2) := by
  intro h
  have h1 := h "a:b" "c" "t" "s" "a" "b:c" "t" "s" (by decide)
  exact absurd h1.1 (by decide)

/-- C5, amended: on field tuples whose ID, Email and secret contain no colon
(the timestamp text may), the digest input determines the four fields. -/
theorem digestInput_injective_of_no_colon (id email ts secret id2 email2 ts2 secret2 : String)
    (hid : ':' ∉ id.data) (hid2 : ':' ∉ id2.data)
    (hemail : ':' ∉ email.data) (hemail2 : ':' ∉ email2.data)
    (hsecret : ':' ∉ secret.data) (hsecret2 : ':' ∉ secret2.data)
    (h : digestInput id email ts secret = digestInput id2 email2 ts2 secret2) :
    id = id2 ∧ email = email2 ∧ ts = ts2 ∧ secret = secret2 := by
  have hd := congrArg String.data h
  rw [digestInput_data, digestInput_data] at hd
  obtain ⟨h1, hd1⟩ := append_colon_inj hid hid2 hd
  obtain ⟨h2, hd2⟩ := append_colon_inj hemail hemail2 hd1
  obtain ⟨h3, h4⟩ := append_colon_inj_right hsecret hsecret2 hd2
  exact ⟨String.ext h1, String.ext h2, String.ext h3, String.ext h4⟩

/-- C5, amended, at a tuple whose timestamp text contains colons. -/
theorem digestInput_injective_of_no_colon_witness :
    digestInput "7" "a@b.c" "2024-05-01 10:00:00 +0000 UTC" "s3cret" =
        digestInput "7" "a@b.c" "2024-05-01 10:00:00 +0000 UTC" "s3cret" ∧
    ("7" = "7" ∧ "a@b.c" = "a@b.c" ∧
      "2024-05-01 10:00:00 +0000 UTC" = "2024-05-01 10:00:00 +0000 UTC" ∧
      "s3cret" = "s3cret") :=
  ⟨rfl, digestInput_injective_of_no_colon "7" "a@b.c" "2024-05-01 10:00:00 +0000 UTC" "s3cret"
    "7" "a@b.c" "2024-05-01 10:00:00 +0000 UTC" "s3cret"
    (by decide) (by decide) (by decide) (by decide) (by decide) (by decide) rfl⟩

/-! ## Lemmas: validation -/

theorem ErrMap.get?_set (m : ErrMap) (k v k2 : String) :
    (m.set k v).get? k2 = if k = k2 then some v else m.get? k2 := by
  induction m with
  | nil =>
    by_cases h : k = k2
    · simp [ErrMap.set, ErrMap.get?, List.lookup, h]
    · have h2 : (k2 == k) = false := by simpa using fun e => h e.symm
      simp [ErrMap.set, ErrMap.get?, List.lookup, h, h2]
  | cons kv rest ih =>
    obtain ⟨k1, v1⟩ := kv
    simp only [ErrMap.get?] at ih
    by_cases h1 : k1 = k
    · subst h1
      by_cases h : k1 = k2
      · simp [ErrMap.set, ErrMap.get?, List.lookup, h]
      · have h2 : (k2 == k1) = false := by simpa using fun e => h e.symm
        simp [ErrMap.set, ErrMap.get?, List.lookup, h, h2]
    · have h1b : (k1 == k) = false := by simpa using h1
      simp only [ErrMap.set, h1b, ErrMap.get?, List.lookup]
      by_cases h3 : k2 = k1
      · subst h3
        have : ¬ k = k2 := fun e => h1 e.symm
        simp [this]
      · have h3b : (k2 == k1) = false := by simpa using h3
        simp only [h3b]
        exact ih

theorem ErrMap.hasKey_set (m : ErrMap) (k v k2 : String) :
    (m.set k v).hasKey k2 = (decide (k = k2) || m.hasKey k2) := by
  simp only [ErrMap.hasKey, ErrMap.get?_set]
  by_cases h : k = k2 <;> simp [h]

theorem ErrMap.hasKey_nil (k : String) : ErrMap.hasKey [] k = false := rfl

theorem ParseAddress_empty (env : Env) : ParseAddress env "" = some "mail: no address" := rfl

theorem ParseAddress_none_ne_empty {env : Env} {address : String}
    (h : ParseAddress env address = none) : address ≠ "" := by
  intro he
  rw [he, ParseAddress_empty] at h
  exact Option.noConfusion h

/-- The keys of the map `Validate` returns, as a formula in the checks it makes. -/
theorem NewJob.Validate_hasKey (env : Env) (newJob : NewJob) (update : Bool) (k : String) :
    (newJob.Validate env update).hasKey k =
      ((newJob.Position == "" && decide ("position" = k)) ||
        (newJob.Organization == "" && decide ("organization" = k)) ||
        (newJob.Description == "" &&
          (newJob.Url == "" || (ParseRequestURI env newJob.Url).isSome) &&
          decide ("url" = k)) ||
        (!update && (newJob.Email == "" || (ParseAddress env newJob.Email).isSome) &&
          decide ("email" = k))) := by
  unfold NewJob.Validate
  generalize (newJob.Position == "") = c1
  generalize (newJob.Organization == "") = c2
  generalize (newJob.Url == "") = c3
  generalize (newJob.Description == "") = c4
  generalize (ParseRequestURI env newJob.Url).isSome = c5
  generalize (newJob.Email == "") = c6
  generalize (ParseAddress env newJob.Email).isSome = c7
  cases c1 <;> cases c2 <;> cases c3 <;> cases c4 <;> cases c5 <;> cases c6 <;> cases c7 <;>
    cases update <;>
    simp [ErrMap.hasKey_set, ErrMap.hasKey_nil, Bool.or_comm, Bool.or_left_comm]

/-! ## Lemmas: the request URI -/

theorem getSchemeFrom_no_scheme {rawURL : List Char} (hne : rawURL ≠ []) :
    ∀ (cs : List Char) (i : Nat) (rest : List Char),
      getSchemeFrom rawURL i cs = .ok ([], rest) → rest = rawURL := by
  intro cs
  induction cs with
  | nil =>
    intro i rest h
    simp only [getSchemeFrom, Except.ok.injEq, Prod.mk.injEq, true_and] at h
    exact h.symm
  | cons c cs ih =>
    intro i rest h
    simp only [getSchemeFrom] at h
    split at h
    · exact ih _ _ h
    · split at h
      · split at h
        · simp only [Except.ok.injEq, Prod.mk.injEq, true_and] at h
          exact h.symm
        · exact ih _ _ h
      · split at h
        · split at h
          · exact Except.noConfusion h
          · rename_i hi
            simp only [Except.ok.injEq, Prod.mk.injEq] at h
            have h0 : i ≠ 0 := by simpa using hi
            have := h.1
            rw [List.take_eq_nil_iff] at this
            rcases this with h1 | h1
            · exact absurd h1 h0
            · exact absurd h1 hne
        · simp only [Except.ok.injEq, Prod.mk.injEq, true_and] at h
          exact h.symm

theorem hasPrefix_slash_iff (s : List Char) :
    hasPrefix s ['/'] = true ↔ ∃ t, s = '/' :: t := by
  cases s with
  | nil => simp [hasPrefix]
  | cons c t =>
    simp only [hasPrefix, List.isPrefixOf, Bool.and_eq_true, beq_iff_eq, List.cons.injEq,
      exists_eq_right', and_true]
    constructor
    · intro h
      exact h.symm
    · intro h
      exact h.symm

theorem hasPrefix_slash_of_dropLast {s : List Char}
    (h : hasPrefix s.dropLast ['/'] = true) : hasPrefix s ['/'] = true := by
  rw [hasPrefix_slash_iff] at h ⊢
  obtain ⟨t, ht⟩ := h
  cases s with
  | nil => simp at ht
  | cons c cs =>
    cases cs with
    | nil => simp at ht
    | cons d ds =>
      simp only [List.dropLast, List.cons.injEq] at ht
      exact ⟨d :: ds, by rw [ht.1]⟩

theorem hasPrefix_slash_of_cut {s : List Char} {sep : Char}
    (h : hasPrefix (cut s sep).1 ['/'] = true) : hasPrefix s ['/'] = true := by
  rw [hasPrefix_slash_iff] at h ⊢
  obtain ⟨t, ht⟩ := h
  cases s with
  | nil => simp [cut] at ht
  | cons c cs =>
    simp only [cut, List.takeWhile] at ht
    split at ht
    · simp only [List.cons.injEq] at ht
      exact ⟨cs, by rw [ht.1]⟩
    · exact absurd ht (by simp)

/-- A request URI that parses is "*", or has a scheme, or starts with a slash. -/
theorem parse_none_shape {env : Env} {rawURL : List Char} (h : parse env rawURL = none) :
    rawURL = ['*'] ∨
      (∃ scheme rest, getScheme rawURL = .ok (scheme, rest) ∧ scheme ≠ []) ∨
      hasPrefix rawURL ['/'] = true := by
  unfold parse at h
  split at h
  · exact Option.noConfusion h
  · split at h
    · exact Option.noConfusion h
    · rename_i hne
      have hne2 : rawURL ≠ [] := by simpa using hne
      split at h
      · rename_i hstar
        exact Or.inl (by simpa using hstar)
      · split at h
        · exact Option.noConfusion h
        · rename_i scheme rest hs
          by_cases hsch : scheme = []
          · subst hsch
            have hrest : rest = rawURL := getSchemeFrom_no_scheme hne2 _ _ _ hs
            subst hrest
            right; right
            have hR : hasPrefix
                (if (hasSuffix rest ['?'] && rest.count '?' == 1) = true then rest.dropLast
                  else (cut rest '?').1) ['/'] = true → hasPrefix rest ['/'] = true := by
              intro hpre
              split at hpre
              · exact hasPrefix_slash_of_dropLast hpre
              · exact hasPrefix_slash_of_cut hpre
            dsimp only at h
            generalize (if (hasSuffix rest ['?'] && rest.count '?' == 1) = true
              then rest.dropLast else (cut rest '?').1) = R at h hR
            cases hpre : hasPrefix R ['/'] with
            | true => exact hR hpre
            | false => simp [hpre] at h
          · exact Or.inr (Or.inl ⟨scheme, rest, hs, hsch⟩)


/-! ## Theorems: validation -/

/-- C6: validation accumulates its failures.  In either mode the map has the key
"position" when Position is empty, "organization" when Organization is empty,
"url" when Description is empty and Url is empty or does not parse; in create
mode it has the key "email" when Email is empty or does not parse.  When
Position, Organization, Url and Description are all empty, the keys position,
organization and url are there together. -/
theorem NewJob.Validate_accumulates (env : Env) (newJob : NewJob) (update : Bool) :
    (newJob.Position = "" → (newJob.Validate env update).hasKey "position" = true) ∧
    (newJob.Organization = "" →
      (newJob.Validate env update).hasKey "organization" = true) ∧
    (newJob.Description = "" →
      (newJob.Url = "" ∨ (ParseRequestURI env newJob.Url).isSome = true) →
      (newJob.Validate env update).hasKey "url" = true) ∧
    (update = false →
      (newJob.Email = "" ∨ (ParseAddress env newJob.Email).isSome = true) →
      (newJob.Validate env update).hasKey "email" = true) ∧
    (newJob.Position = "" → newJob.Organization = "" → newJob.Url = "" →
      newJob.Description = "" →
      (newJob.Validate env update).hasKey "position" = true ∧
      (newJob.Validate env update).hasKey "organization" = true ∧
      (newJob.Validate env update).hasKey "url" = true) := by
  have hpos : newJob.Position = "" → (newJob.Validate env update).hasKey "position" = true := by
    intro h
    rw [NewJob.Validate_hasKey, h]
    simp
  have horg : newJob.Organization = "" →
      (newJob.Validate env update).hasKey "organization" = true := by
    intro h
    rw [NewJob.Validate_hasKey, h]
    simp
  have hurl : newJob.Description = "" →
      (newJob.Url = "" ∨ (ParseRequestURI env newJob.Url).isSome = true) →
      (newJob.Validate env update).hasKey "url" = true := by
    intro h hu
    rw [NewJob.Validate_hasKey, h]
    rcases hu with hu | hu <;> simp [hu]
  refine ⟨hpos, horg, hurl, ?_, ?_⟩
  · intro hup he
    rw [NewJob.Validate_hasKey, hup]
    rcases he with he | he <;> simp [he]
  · intro h1 h2 h3 h4
    exact ⟨hpos h1, horg h2, hurl h4 (Or.inl h3)⟩

/-- C6, at a submission with every field empty, in create mode: the four keys
are there together. -/
theorem NewJob.Validate_accumulates_witness :
    (NewJob.Validate sampleEnv
        { Position := "", Organization := "", Url := "", Description := "", Email := "" }
        false).hasKey "position" = true ∧
    (NewJob.Validate sampleEnv
        { Position := "", Organization := "", Url := "", Description := "", Email := "" }
        false).hasKey "organization" = true ∧
    (NewJob.Validate sampleEnv
        { Position := "", Organization := "", Url := "", Description := "", Email := "" }
        false).hasKey "url" = true :=
  (NewJob.Validate_accumulates sampleEnv
    { Position := "", Organization := "", Url := "", Description := "", Email := "" }
    false).2.2.2.2 rfl rfl rfl rfl

/-- C7: a description alone satisfies the url/description requirement.  With
Position, Organization and Description not empty, whatever Url is, the map has
no position, organization or url key; in update mode it is empty; in create
mode it is empty when Email parses as an address and is exactly the one entry
email: "Must provide a valid Email" when it does not. -/
theorem NewJob.Validate_description_suffices (env : Env) (newJob : NewJob)
    (hp : newJob.Position ≠ "") (ho : newJob.Organization ≠ "")
    (hd : newJob.Description ≠ "") :
    (∀ update : Bool,
      (newJob.Validate env update).hasKey "position" = false ∧
      (newJob.Validate env update).hasKey "organization" = false ∧
      (newJob.Validate env update).hasKey "url" = false) ∧
    newJob.Validate env true = [] ∧
    (ParseAddress env newJob.Email = none → newJob.Validate env false = []) ∧
    (ParseAddress env newJob.Email ≠ none →
      newJob.Validate env false = [("email", "Must provide a valid Email")]) := by
  have hp2 : (newJob.Position == "") = false := by simpa using hp
  have ho2 : (newJob.Organization == "") = false := by simpa using ho
  have hd2 : (newJob.Description == "") = false := by simpa using hd
  refine ⟨?_, ?_, ?_, ?_⟩
  · intro update
    simp only [NewJob.Validate_hasKey, hp2, ho2, hd2]
    simp
  · simp [NewJob.Validate, hp2, ho2, hd2]
  · intro hparse
    have he : (newJob.Email == "") = false := by
      simpa using ParseAddress_none_ne_empty hparse
    simp [NewJob.Validate, hp2, ho2, hd2, he, hparse]
  · intro hparse
    have hs : (ParseAddress env newJob.Email).isSome = true := by
      cases h : ParseAddress env newJob.Email with
      | none => exact absurd h hparse
      | some e => rfl
    cases he : (newJob.Email == "") <;>
      simp [NewJob.Validate, hp2, ho2, hd2, he, hs, ErrMap.set]

/-- C7, at position "Engineer", organization "Acme", no url, description
"Remote role": update passes, and creation with an invalid email is rejected
with the one email entry. -/
theorem NewJob.Validate_description_suffices_witness :
    NewJob.Validate sampleEnv
        { Position := "Engineer", Organization := "Acme", Url := "",
          Description := "Remote role", Email := "nobody" } true = [] ∧
    NewJob.Validate sampleEnv
        { Position := "Engineer", Organization := "Acme", Url := "",
          Description := "Remote role", Email := "nobody" } false =
      [("email", "Must provide a valid Email")] :=
  ⟨(NewJob.Validate_description_suffices sampleEnv
      { Position := "Engineer", Organization := "Acme", Url := "",
        Description := "Remote role", Email := "nobody" }
      (by decide) (by decide) (by decide)).2.1,
    (NewJob.Validate_description_suffices sampleEnv
      { Position := "Engineer", Organization := "Acme", Url := "",
        Description := "Remote role", Email := "nobody" }
      (by decide) (by decide) (by decide)).2.2.2 (by decide)⟩

/-- C8 as stated fails: with an empty Description, a Url without a scheme can
pass.  The path "/jobs" gets no url error, in either mode and whatever the
library does. -/
theorem NewJob.Validate_accepts_path_only :
    ¬ (∀ (env : Env) (newJob : NewJob) (update : Bool), newJob.Description = "" →
        (newJob.Validate env update).hasKey "url" = false → hasScheme newJob.Url = true) ∧
    (∀ (env : Env) (update : Bool),
      (NewJob.Validate env
        { Position := "Engineer", Organization := "Acme", Url := "/jobs",
          Description := "", Email := "a@b.c" } update).hasKey "url" = false) := by
  have hurl : ∀ (env : Env) (update : Bool),
      (NewJob.Validate env
        { Position := "Engineer", Organization := "Acme", Url := "/jobs",
          Description := "", Email := "a@b.c" } update).hasKey "url" = false := by
    intro env update
    rw [NewJob.Validate_hasKey]
    have h1 : ParseRequestURI env "/jobs" = none := rfl
    simp [h1]
  refine ⟨fun h => ?_, hurl⟩
  have h1 := h sampleEnv
    { Position := "Engineer", Organization := "Acme", Url := "/jobs",
      Description := "", Email := "a@b.c" } false rfl (hurl sampleEnv false)
  revert h1
  decide

/-- C8, amended: with an empty Description, the map has no url key exactly when
`url.ParseRequestURI` accepts Url, and then Url is "*", or has a scheme, or is
an absolute path (it starts with a slash). -/
theorem NewJob.Validate_url_request_uri (env : Env) (newJob : NewJob) (update : Bool)
    (hd : newJob.Description = "") :
    ((newJob.Validate env update).hasKey "url" = false ↔
      ParseRequestURI env newJob.Url = none) ∧
    ((newJob.Validate env update).hasKey "url" = false →
      newJob.Url = "*" ∨ hasScheme newJob.Url = true ∨
        hasPrefix newJob.Url.data ['/'] = true) := by
  have hiff : (newJob.Validate env update).hasKey "url" = false ↔
      ParseRequestURI env newJob.Url = none := by
    rw [NewJob.Validate_hasKey, hd]
    by_cases hu : newJob.Url = ""
    · have hp : ParseRequestURI env "" = some "empty url" := rfl
      simp [hu, hp]
    · have hu2 : (newJob.Url == "") = false := by simpa using hu
      cases hp : ParseRequestURI env newJob.Url <;> simp [hu2]
  refine ⟨hiff, fun h => ?_⟩
  have hp := hiff.1 h
  rcases parse_none_shape hp with h1 | ⟨scheme, rest, hs, hne⟩ | h3
  · exact Or.inl (String.ext h1)
  · right; left
    simp only [hasScheme, hs]
    simpa using hne
  · exact Or.inr (Or.inr h3)

/-- C8, amended, at the Url "/jobs": it passes, as an absolute path. -/
theorem NewJob.Validate_url_request_uri_witness :
    ParseRequestURI sampleEnv "/jobs" = none ∧
    hasScheme "/jobs" = false ∧
    hasPrefix "/jobs".data ['/'] = true ∧
    ParseRequestURI sampleEnv "jobs" = some "invalid URI for request" :=
  ⟨((NewJob.Validate_url_request_uri sampleEnv
      { Position := "Engineer", Organization := "Acme", Url := "/jobs",
        Description := "", Email := "a@b.c" } true rfl).1).1 (by decide),
    by decide, by decide, by decide⟩

/-! ## Theorems: the social-publish sweep -/

/-- C10: on a store that answers, with unique user emails, the statement of
`GetJobsToPostOnSocials` returns no all-NULL row, and its rows are, up to order,
the jobs of the jobs table that are not yet published and whose email is the
email of a verified user, each as often as it is in the table; a job whose
email matches no verified user is not returned. -/
theorem GetJobsToPostOnSocials_due (db : DB) (hf : db.failure = none)
    (hu : (db.users.map fun u => u.Email).Nodup) :
    ∃ res : List Job,
      selectJobsToPost db = res.map some ∧
      GetJobsToPostOnSocials db = .ok res ∧
      res.Perm (db.jobs.filter (dueForPosting db.users)) ∧
      (∀ j ∈ res, j ∈ db.jobs ∧ j.PublishedToSocials = false ∧
        ∃ u ∈ db.users, u.Verified = true ∧ u.Email = j.Email) ∧
      (∀ j : Job, res.count j = if dueForPosting db.users j then db.jobs.count j else 0) ∧
      (∀ j : Job, (∀ u ∈ db.users, u.Verified = true → u.Email ≠ j.Email) → j ∉ res) := by
  obtain ⟨res, hsel, hget, hperm⟩ := GetJobsToPostOnSocials_ok db hf
  rw [flatMap_matches_eq_filter db.jobs db.users hu] at hperm
  have hmem : ∀ j ∈ res, j ∈ db.jobs ∧ j.PublishedToSocials = false ∧
      ∃ u ∈ db.users, u.Verified = true ∧ u.Email = j.Email := by
    intro j hj
    have h1 := hperm.mem_iff.1 hj
    rw [List.mem_filter] at h1
    obtain ⟨hjobs, hdue⟩ := h1
    simp only [dueForPosting, Bool.and_eq_true, Bool.not_eq_true', List.any_eq_true,
      beq_iff_eq] at hdue
    obtain ⟨hp, u, hu1, hv, he⟩ := hdue
    exact ⟨hjobs, hp, u, hu1, hv, he⟩
  refine ⟨res, hsel, hget, hperm, hmem, ?_, ?_⟩
  · intro j
    rw [hperm.count_eq j]
    by_cases hd : dueForPosting db.users j = true
    · rw [List.count_filter hd]
      simp [hd]
    · have hnot : j ∉ db.jobs.filter (dueForPosting db.users) := by
        intro hm
        exact hd (List.mem_filter.1 hm).2
      rw [List.count_eq_zero_of_not_mem hnot]
      simp [hd]
  · intro j hno hj
    obtain ⟨_, _, u, hu1, hv, he⟩ := hmem j hj
    exact hno u hu1 hv he

/-- C10, on a store with one due job, one job of an unverified user and one
published job: the due job is returned, once. -/
theorem GetJobsToPostOnSocials_due_witness :
    GetJobsToPostOnSocials sampleStore = .ok [sampleJob] ∧
    ∃ res : List Job,
      GetJobsToPostOnSocials sampleStore = .ok res ∧
      ∀ j ∈ res, j.PublishedToSocials = false :=
  ⟨by decide,
    (GetJobsToPostOnSocials_due sampleStore rfl (by decide)).imp
      fun _ h => ⟨h.2.1, fun j hj => (h.2.2.2.1 j hj).2.1⟩⟩

/-- C9: on a store that answers, `publishJobOnSocials` attempts the Slack post
exactly when SlackHook is not empty and the Twitter post exactly when
Twitter.AccessToken is not empty, whatever the calls return, and then saves the
job once, with PublishedToSocials set and its other fields as fetched.  After
one sweep of `postUnpublishedJobs` the saves are those of the jobs
`GetJobsToPostOnSocials` returned, one each, every row with the ID of a returned
job is published, and a second sweep finds no job due and adds no event,
whatever the platforms and the configuration are then. -/
theorem postUnpublishedJobs_marks_once (svc : Services) (config : Config) (st : TaskState)
    (hf : st.1.failure = none) :
    (∀ job : Job,
      ((∃ err, Event.slack job err ∈
          newEvents st.2 (publishJobOnSocials svc config job st).2) ↔
        config.SlackHook ≠ "") ∧
      ((∃ err, Event.twitter job err ∈
          newEvents st.2 (publishJobOnSocials svc config job st).2) ↔
        config.Twitter.AccessToken ≠ "") ∧
      savedJobs (newEvents st.2 (publishJobOnSocials svc config job st).2) =
        [{ job with PublishedToSocials := true }] ∧
      (publishJobOnSocials svc config job st).1.jobs =
        st.1.jobs.map (Job.updateRow { job with PublishedToSocials := true }) ∧
      (publishJobOnSocials svc config job st).1.users = st.1.users ∧
      (job ∈ st.1.jobs →
        ({ job with PublishedToSocials := true } : Job) ∈
          (publishJobOnSocials svc config job st).1.jobs)) ∧
    (∃ res : List Job,
      GetJobsToPostOnSocials st.1 = .ok res ∧
      savedJobs (newEvents st.2 (postUnpublishedJobs svc config st).2) =
        res.map (fun j => { j with PublishedToSocials := true }) ∧
      (∀ j ∈ res, ∃ row ∈ (postUnpublishedJobs svc config st).1.jobs, row.ID = j.ID) ∧
      (∀ j ∈ res, ∀ row ∈ (postUnpublishedJobs svc config st).1.jobs,
        row.ID = j.ID → row.PublishedToSocials = true) ∧
      GetJobsToPostOnSocials (postUnpublishedJobs svc config st).1 = .ok [] ∧
      (∀ (svc2 : Services) (config2 : Config) (log : List Event),
        postUnpublishedJobs svc2 config2 ((postUnpublishedJobs svc config st).1, log) =
          ((postUnpublishedJobs svc config st).1, log))) := by
  constructor
  · intro job
    have hlog := publishJobOnSocials_log svc config job st
    have hstore : (publishJobOnSocials svc config job st).1 =
        ⟨st.1.jobs.map job.marked.updateRow, st.1.users, st.1.failure⟩ := by
      rw [publishJobOnSocials_store, Save_jobs hf]
    rw [hlog, newEvents_append]
    refine ⟨?_, ?_, ?_, ?_, ?_, ?_⟩
    · by_cases h1 : config.SlackHook = "" <;>
        by_cases h2 : config.Twitter.AccessToken = "" <;> simp [h1, h2]
    · by_cases h1 : config.SlackHook = "" <;>
        by_cases h2 : config.Twitter.AccessToken = "" <;> simp [h1, h2]
    · by_cases h1 : config.SlackHook = "" <;>
        by_cases h2 : config.Twitter.AccessToken = "" <;>
        simp [h1, h2, savedJobs, Job.marked]
    · rw [hstore]; rfl
    · rw [hstore]
    · intro hj
      rw [hstore]
      have : job.marked.updateRow job = job.marked := by
        simp [Job.updateRow, Job.marked]
      exact List.mem_map.2 ⟨job, hj, this⟩
  · obtain ⟨res, _, hget, hperm⟩ := GetJobsToPostOnSocials_ok st.1 hf
    have hpost : postUnpublishedJobs svc config st =
        res.foldl (fun st job => publishJobOnSocials svc config job st) st := by
      simp [postUnpublishedJobs, hget]
    obtain ⟨hstore, hsaved⟩ := sweep_fold svc config res st hf
    obtain ⟨new, hnew⟩ := sweep_log_extends svc config res st
    rw [← hpost] at hstore hsaved hnew
    have hafter := no_job_due_after_sweep st.1 hf res hperm
    rw [← hstore] at hafter
    refine ⟨res, hget, ?_, ?_, ?_, hafter, ?_⟩
    · rw [hnew, newEvents_append]
      rw [hnew, savedJobs_append] at hsaved
      exact List.append_cancel_left hsaved
    · intro j hj
      have hjobs : j ∈ st.1.jobs := by
        have := hperm.mem_iff.1 hj
        simp only [List.mem_flatMap, List.mem_map] at this
        obtain ⟨row, hrow, _, _, he⟩ := this
        rw [← he]; exact hrow
      rw [hstore]
      exact ⟨sweepRow res j, List.mem_map.2 ⟨j, hjobs, rfl⟩, (sweepRow_keys res j).1⟩
    · intro j hj row hrow hid
      rw [hstore] at hrow
      obtain ⟨row0, _, hrow0⟩ := List.mem_map.1 hrow
      subst hrow0
      rw [(sweepRow_keys res row0).1] at hid
      exact sweepRow_published res row0 (Or.inr ⟨j, hj, hid.symm⟩)
    · intro svc2 config2 log
      generalize postUnpublishedJobs svc config st = r at hafter
      simp only [postUnpublishedJobs, hafter, List.foldl_nil]

/-- C9, on the sample store with both platforms configured and failing: the due
job is posted to both, saved once and published; the second sweep does
nothing. -/
theorem postUnpublishedJobs_marks_once_witness :
    (sampleStore, ([] : List Event)).1.failure = none ∧
    postUnpublishedJobs sampleServices sampleConfig (sampleStore, []) =
      (⟨[{ sampleJob with ID := "8", Email := "x@y.z" },
          { sampleJob with PublishedToSocials := true },
          { sampleJob with ID := "9", PublishedToSocials := true }],
        sampleStore.users, none⟩,
        [Event.slack sampleJob (some "slack: 500"),
          Event.twitter sampleJob (some "twitter: 401"),
          Event.save { sampleJob with PublishedToSocials := true }]) ∧
    GetJobsToPostOnSocials
      (postUnpublishedJobs sampleServices sampleConfig (sampleStore, [])).1 = .ok [] :=
  ⟨rfl, by decide,
    (postUnpublishedJobs_marks_once sampleServices sampleConfig (sampleStore, []) rfl).2.elim
      fun _ h => h.2.2.2.2.1⟩

end JobBoard
